import Mathlib

/-!
Verification of the Content-Addressed Asset Fetcher of `Async/csv_backup.py`
(`class XCOPYDownloader`).

The embedding below translates, from the source:
  * the compiled regular expression `cid_pattern`
    `(?:https?://[^/\s]*ipfs[^/\s]*/(?:ipfs/)?|ipfs://)?(?:(Qm[a-zA-Z0-9]{44})|(baf[a-z0-9]{50,}))`
    with the `re.I` flag (which applies to the whole pattern), including the
    backtracking search order of the Python `re` engine, and `finditer`'s
    left-to-right non-overlapping scan;
  * `_extract_all_cids` (the recursive JSON walker with parent exclusion);
  * `_download` (the 40-attempt retry loop with the 200-status and
    1000-byte acceptance test), modelled over an oracle giving the outcome
    of each HTTP attempt;
  * the magic-byte extension classifier inside `download_cid`;
  * `download_cid` itself as a state-passing function over a state holding
    the storage directory contents, the in-memory `downloaded` set and the
    persisted progress file, with external effects (the collapsed gateway
    fetch, `json.loads`, UTF-8 decoding) supplied by an `Env` of oracles,
    and recursion bounded by explicit fuel (the Python recursion has no
    bound; fuel 0 is only reached below any fuel large enough for the
    inputs considered, and returns the state unchanged).
-/

/-! ## Character classes of the pattern -/

/-- Python `\s` (ASCII range), used by the `[^/\s]` class of the scaffold. -/
def isSpaceC (c : Char) : Bool :=
  c == ' ' || c == '\t' || c == '\n' || c == '\r' || c == Char.ofNat 11 || c == Char.ofNat 12

/-- The class `[a-zA-Z0-9]` (also `[a-z0-9]` under `re.I`). -/
def isAlnumC (c : Char) : Bool :=
  ('a' ≤ c && c ≤ 'z') || ('A' ≤ c && c ≤ 'Z') || ('0' ≤ c && c ≤ '9')

/-- The base58btc alphabet: alphanumerics without `0`, `O`, `I`, `l`.
The pattern's V0 class is the wider `[a-zA-Z0-9]`; base58 is the subset the
spec talks about. -/
def isBase58C (c : Char) : Bool :=
  isAlnumC c && !(c == '0' || c == 'O' || c == 'I' || c == 'l')

/-- `[^/\s]` of the scaffold. -/
def notSlashSpace (c : Char) : Bool := !(c == '/' || isSpaceC c)

/-! ## The regex engine model

Continuation/backtracking model of the Python `re` engine restricted to the
constructs of `cid_pattern`: case-insensitive literals (`re.I`), greedy
`[^/\s]*` with backtracking, a counted class `{44}`, and a greedy `{50,}`. -/

/-- Case-insensitive literal match (`re.I`): consume `lit` (given in
lowercase), return the remaining input. -/
def litCI : List Char → List Char → Option (List Char)
  | [], s => some s
  | _ :: _, [] => none
  | c :: cs, x :: xs => if x.toLower == c then litCI cs xs else none

/-- `[a-zA-Z0-9]{n}`: exactly `n` alphanumerics, returning them and the rest. -/
def takeAlnum : Nat → List Char → Option (List Char × List Char)
  | 0, s => some ([], s)
  | _ + 1, [] => none
  | n + 1, c :: rest =>
    if isAlnumC c then
      match takeAlnum n rest with
      | some (t, r) => some (c :: t, r)
      | none => none
    else none

/-- Maximal run of alphanumerics (for the greedy `{50,}` with nothing after it). -/
def alnumRun : List Char → List Char × List Char
  | [] => ([], [])
  | c :: rest =>
    if isAlnumC c then
      let p := alnumRun rest
      (c :: p.1, p.2)
    else ([], c :: rest)

/-- Group 1 `Qm[a-zA-Z0-9]{44}` (the `Qm` literal is case-insensitive under
`re.I`): returns (captured group, rest after the group). -/
def qmBody : List Char → Option (List Char × List Char)
  | a :: b :: rest =>
    if a.toLower == 'q' && b.toLower == 'm' then
      match takeAlnum 44 rest with
      | some (t, r) => some (a :: b :: t, r)
      | none => none
    else none
  | _ => none

/-- Group 2 `baf[a-z0-9]{50,}` (under `re.I`: `baf` case-insensitive and the
class closed under case): returns (captured group, rest). -/
def bafBody : List Char → Option (List Char × List Char)
  | a :: b :: c :: rest =>
    if a.toLower == 'b' && b.toLower == 'a' && c.toLower == 'f' then
      let p := alnumRun rest
      if 50 ≤ p.1.length then some (a :: b :: c :: p.1, p.2) else none
    else none
  | _ => none

/-- The alternation `(?:(Qm...)|(baf...))`, group 1 preferred. -/
def cidBody (s : List Char) : Option (List Char × List Char) :=
  match qmBody s with
  | some r => some r
  | none => bafBody s

/-- Greedy Kleene star over a class with full backtracking into the
continuation `k` (longest consumption tried first, as the `re` engine does). -/
def starThen (cls : Char → Bool) (k : List Char → Option (List Char × List Char)) :
    List Char → Option (List Char × List Char)
  | [] => k []
  | c :: rest =>
    if cls c then
      match starThen cls k rest with
      | some r => some r
      | none => k (c :: rest)
    else k (c :: rest)

/-- After the host `/`: the optional `(?:ipfs/)?` (present tried first), then
the capture groups. -/
def hostTail (s4 : List Char) : Option (List Char × List Char) :=
  match litCI ['i', 'p', 'f', 's', '/'] s4 with
  | some s5 =>
    (match cidBody s5 with
     | some r => some r
     | none => cidBody s4)
  | none => cidBody s4

/-- The literal `/` closing `[^/\s]*ipfs[^/\s]*/`. -/
def hostAfterSlash : List Char → Option (List Char × List Char)
  | '/' :: s4 => hostTail s4
  | _ => none

/-- `ipfs[^/\s]*/(?:ipfs/)?` then the groups. -/
def hostOuterK (s1 : List Char) : Option (List Char × List Char) :=
  match litCI ['i', 'p', 'f', 's'] s1 with
  | some s2 => starThen notSlashSpace hostAfterSlash s2
  | none => none

/-- `[^/\s]*ipfs[^/\s]*/(?:ipfs/)?` then the groups. -/
def hostPart (s : List Char) : Option (List Char × List Char) :=
  starThen notSlashSpace hostOuterK s

/-- Scaffold alternative 1: `https?://[^/\s]*ipfs[^/\s]*/(?:ipfs/)?` then the
groups; `s?` greedy (present first). -/
def httpAlt (s : List Char) : Option (List Char × List Char) :=
  match litCI ['h', 't', 't', 'p'] s with
  | none => none
  | some s1 =>
    match litCI ['s', ':', '/', '/'] s1 with
    | some s2 =>
      (match hostPart s2 with
       | some r => some r
       | none =>
         match litCI [':', '/', '/'] s1 with
         | some s2b => hostPart s2b
         | none => none)
    | none =>
      match litCI [':', '/', '/'] s1 with
      | some s2 => hostPart s2
      | none => none

/-- Scaffold alternative 2: `ipfs://` then the groups. -/
def ipfsAlt (s : List Char) : Option (List Char × List Char) :=
  match litCI ['i', 'p', 'f', 's', ':', '/', '/'] s with
  | some s1 => cidBody s1
  | none => none

/-- One anchored match attempt of `cid_pattern` at the head of `s`: the
optional scaffold is greedy (alternative 1, alternative 2, then absent).
Returns (captured group 1 or 2, input after the whole match). -/
def matchCid (s : List Char) : Option (List Char × List Char) :=
  match httpAlt s with
  | some r => some r
  | none =>
    match ipfsAlt s with
    | some r => some r
    | none => cidBody s

/-- `finditer`: left-to-right scan, non-overlapping, resuming after each
whole match. Fuel is the length of the scanned input. -/
def scanAux : Nat → List Char → List (List Char)
  | 0, _ => []
  | _ + 1, [] => []
  | n + 1, c :: rest =>
    match matchCid (c :: rest) with
    | some (cap, rem) => cap :: scanAux n rem
    | none => scanAux n rest

/-- All identifiers `cid_pattern.finditer` yields on a string (each being
`match.group(1) or match.group(2)`). -/
def findIdentifiers (s : String) : List String :=
  (scanAux s.data.length s.data).map (fun l => String.mk l)

/-- The per-string step of `_extract_all_cids`: every match with
`if cid and cid != parent_cid` applied. -/
def findCidsFiltered (s parent : String) : List String :=
  (findIdentifiers s).filter (fun c => !(c == "") && !(c == parent))

/-! ## JSON values and the document walker -/

/-- A parsed JSON value, as `json.loads` returns it. -/
inductive JVal where
  | str : String → JVal
  | num : Int → JVal
  | bool : Bool → JVal
  | null : JVal
  | arr : List JVal → JVal
  | obj : List (String × JVal) → JVal

mutual

/-- `_extract_all_cids(obj, parent_cid)`: strings are scanned with the
pattern (dropping empty captures and the parent), dict values and list items
are walked recursively, anything else contributes nothing. -/
def extractAllCids : JVal → String → List String
  | .str s, p => findCidsFiltered s p
  | .num _, _ => []
  | .bool _, _ => []
  | .null, _ => []
  | .arr xs, p => extractArr xs p
  | .obj kvs, p => extractObj kvs p

/-- Walk of a JSON array (list items in order). -/
def extractArr : List JVal → String → List String
  | [], _ => []
  | v :: rest, p => extractAllCids v p ++ extractArr rest p

/-- Walk of a JSON object (`obj.values()` in insertion order; keys ignored). -/
def extractObj : List (String × JVal) → String → List String
  | [], _ => []
  | (_, v) :: rest, p => extractAllCids v p ++ extractObj rest p

end

/-! ## The gateway retry loop `_download` -/

/-- Outcome of one HTTP attempt: `none` is a raised exception, `some (s, c)`
a response with status `s` and body `c`. -/
def attemptOk : Option (Nat × List Nat) → Bool
  | none => false
  | some (s, c) => s == 200 && decide (1000 < c.length)

/-- The retry loop of `_download`: `att i` is the outcome of attempt number
`i`; returns the accepted body (if any) and the number of attempts made. -/
def dlLoop (att : Nat → Option (Nat × List Nat)) : Nat → Nat → Option (List Nat) × Nat
  | 0, made => (none, made)
  | k + 1, made =>
    match att made with
    | some (s, c) =>
      if s == 200 && decide (1000 < c.length) then (some c, made + 1)
      else dlLoop att k (made + 1)
    | none => dlLoop att k (made + 1)

/-- `_download`: up to 40 attempts, then a definitive `None`. -/
def gatewayFetch (att : Nat → Option (Nat × List Nat)) : Option (List Nat) × Nat :=
  dlLoop att 40 0

/-! ## The content classifier of `download_cid` -/

/-- `b'<!DOCTYPE html'`. -/
def htmlSig : List Nat := [60, 33, 68, 79, 67, 84, 89, 80, 69, 32, 104, 116, 109, 108]
/-- `b'\x89PNG'`. -/
def pngSig : List Nat := [137, 80, 78, 71]
/-- `b'\xff\xd8\xff'`. -/
def jpgSig : List Nat := [255, 216, 255]
/-- `b'GIF8'`. -/
def gifSig : List Nat := [71, 73, 70, 56]
/-- `b'RIFF'`. -/
def riffSig : List Nat := [82, 73, 70, 70]
/-- `b'WEBP'`. -/
def webpTag : List Nat := [87, 69, 66, 80]
/-- The ISO-BMFF box tags `ftyp`, `mdat`, `moov`, `wide`. -/
def mp4Tags : List (List Nat) :=
  [[102, 116, 121, 112], [109, 100, 97, 116], [109, 111, 111, 118], [119, 105, 100, 101]]
/-- `b'glTF'`. -/
def glbSig : List Nat := [103, 108, 84, 70]

/-- `data.startswith(b'<!DOCTYPE html')`. -/
def htmlOk (d : List Nat) : Bool := htmlSig.isPrefixOf d
/-- `data.startswith(b'\x89PNG')`. -/
def pngOk (d : List Nat) : Bool := pngSig.isPrefixOf d
/-- `data.startswith(b'\xff\xd8\xff')`. -/
def jpgOk (d : List Nat) : Bool := jpgSig.isPrefixOf d
/-- `data.startswith(b'GIF8')`. -/
def gifOk (d : List Nat) : Bool := gifSig.isPrefixOf d
/-- `len(data) >= 12 and data[:4] == b'RIFF' and data[8:12] == b'WEBP'`. -/
def webpOk (d : List Nat) : Bool :=
  decide (12 ≤ d.length) && d.take 4 == riffSig && (d.drop 8).take 4 == webpTag
/-- `len(data) >= 8 and data[4:8] in [b'ftyp', b'mdat', b'moov', b'wide']`. -/
def mp4Ok (d : List Nat) : Bool :=
  decide (8 ≤ d.length) && mp4Tags.contains ((d.drop 4).take 4)
/-- `data.startswith(b'glTF')`. -/
def glbOk (d : List Nat) : Bool := glbSig.isPrefixOf d

/-- The extension-determination block of `download_cid`, with the outcome of
`json.loads(data)` abstracted into the predicate `jsonOk`. -/
def classify (jsonOk : List Nat → Bool) (data : List Nat) : String :=
  if htmlOk data then ".html"
  else if pngOk data then ".png"
  else if jpgOk data then ".jpg"
  else if gifOk data then ".gif"
  else if webpOk data then ".webp"
  else if mp4Ok data then ".mp4"
  else if glbOk data then ".glb"
  else if jsonOk data then ".json"
  else ".bin"

/-- The 7 binary signatures in the order the spec states them. -/
def sigTable : List ((List Nat → Bool) × String) :=
  [(htmlOk, ".html"), (pngOk, ".png"), (jpgOk, ".jpg"), (gifOk, ".gif"),
   (webpOk, ".webp"), (mp4Ok, ".mp4"), (glbOk, ".glb")]

/-- First binary signature (in stated order) matched by `data`, if any. -/
def firstSig (data : List Nat) : Option String :=
  (sigTable.find? (fun p => p.1 data)).map (fun p => p.2)

/-- The classifier as the spec words it: ordered first-match over the 7
signatures, then the JSON attempt, then opaque binary. -/
def classifySpec (jsonOk : List Nat → Bool) (data : List Nat) : String :=
  match firstSig data with
  | some e => e
  | none => if jsonOk data then ".json" else ".bin"

/-! ## The traversal engine `download_cid` -/

/-- Engine state: the storage directory (file name to bytes), the in-memory
`downloaded` set and the persisted `download_progress.json` contents. -/
structure DlSt where
  files : List (String × List Nat)
  downloaded : List String
  progress : List String
deriving DecidableEq

/-- External effects, abstracted: the collapsed result of `_download`,
`json.loads` on raw bytes (classification) and on decoded text (expansion),
and `bytes.decode("utf-8", errors="ignore")`. -/
structure Env where
  fetch : String → Option (List Nat)
  parseJsonBytes : List Nat → Option JVal
  parseJsonText : String → Option JVal
  decode : List Nat → String

/-- Whether a file named `k` is present in storage. -/
def keyMem (k : String) (fs : List (String × List Nat)) : Bool :=
  fs.any (fun p => p.1 == k)

/-- Bytes of storage file `k`. -/
def lookupFile (k : String) : List (String × List Nat) → Option (List Nat)
  | [] => none
  | p :: rest => if p.1 == k then some p.2 else lookupFile k rest

/-- The extension list of `_exists` and of the existence loop of
`download_cid` (identical in the source). -/
def extOrder : List String :=
  [".json", ".gif", ".png", ".jpg", ".mp4", ".glb", ".html", ".bin", ".webp"]

/-- `_exists(cid)`. -/
def existsOn (cid : String) (st : DlSt) : Bool :=
  extOrder.any (fun e => keyMem (cid ++ e) st.files)

/-- First extension (in the loop's order) under which `cid` is stored. -/
def findExt (cid : String) (st : DlSt) : Option String :=
  extOrder.find? (fun e => keyMem (cid ++ e) st.files)

/-- `json.loads(data)` succeeding, as used by the classifier. -/
def jsonOkOf (env : Env) : List Nat → Bool :=
  fun d => (env.parseJsonBytes d).isSome

/-- Python `str.strip()` (ASCII whitespace). -/
def stripPy (s : String) : String :=
  String.mk (((s.data.dropWhile isSpaceC).reverse.dropWhile isSpaceC).reverse)

/-- Set-insert into the `downloaded` list-as-set. -/
def addId (cid : String) (l : List String) : List String :=
  if l.contains cid then l else cid :: l

/-- Nested identifiers discovered in a stored/downloaded document of
extension `e` (`.json`: parse then walk; `.html`: scan the decoded text,
dropping empty captures and the parent). A failed parse raises inside
`try`/`except: pass`, discovering nothing. -/
def nestedOfData (env : Env) (cid e : String) (data : List Nat) : List String :=
  let text := env.decode data
  if e == ".json" then
    match env.parseJsonText text with
    | some meta => extractAllCids meta cid
    | none => []
  else findCidsFiltered text cid

/-- Nested identifiers discovered on the existence-check path: the first
stored file under `cid`, if its extension is `.json` or `.html`, is re-read
and scanned; a missing/unparseable file discovers nothing (`except: pass`). -/
def nestedExisting (env : Env) (cid : String) (st : DlSt) : List String :=
  match findExt cid st with
  | none => []
  | some e =>
    if e == ".json" || e == ".html" then
      match lookupFile (cid ++ e) st.files with
      | some data => nestedOfData env cid e data
      | none => []
    else []

/-- The `for nested in nested_cids` loop: skip identifiers that already
exist, recurse into `download_cid` (via `dc`) otherwise; threads the state
and sums the network-call counts. -/
def downloadList (dc : String → DlSt → Bool × DlSt × Nat) :
    List String → DlSt → DlSt × Nat
  | [], st => (st, 0)
  | c :: rest, st =>
    if existsOn c st then downloadList dc rest st
    else
      let r := dc c st
      let r2 := downloadList dc rest r.2.1
      (r2.1, r.2.2 + r2.2)

/-- `download_cid(cid)`: returns (return value, final state, number of
`_download` invocations made). Fuel bounds the recursion depth; fuel 0
returns `False` with the state untouched. -/
def downloadCid (env : Env) : Nat → String → DlSt → Bool × DlSt × Nat
  | 0, _, st => (false, st, 0)
  | n + 1, cid0, st =>
    let cid := stripPy cid0
    match findExt cid st with
    | some _ =>
      let r := downloadList (downloadCid env n) (nestedExisting env cid st) st
      (true, r.1, r.2)
    | none =>
      match env.fetch cid with
      | none => (false, st, 1)
      | some data =>
        if data.isEmpty then (false, st, 1)
        else
          let e := classify (jsonOkOf env) data
          let st1 : DlSt :=
            ⟨(cid ++ e, data) :: st.files, addId cid st.downloaded, addId cid st.downloaded⟩
          if e == ".json" || e == ".html" then
            let r := downloadList (downloadCid env n) (nestedOfData env cid e data) st1
            (true, r.1, 1 + r.2)
          else (true, st1, 1)

/-- The invariant of the progress store: every identifier in the in-memory
`downloaded` set and in the persisted progress file has a classified file on
disk. -/
def diskInv (st : DlSt) : Bool :=
  st.downloaded.all (fun id => existsOn id st) && st.progress.all (fun id => existsOn id st)

/-! ## Concrete instances used by witnesses and counterexamples -/

/-- A V0 identifier: `Qm` + 44 base58 characters. -/
def cidR : String := "Qm" ++ String.mk (List.replicate 44 'a')

/-- Another V0 identifier. -/
def cidN : String := "Qm" ++ String.mk (List.replicate 44 'b')

/-- Bytes matching no binary signature that the oracle below parses as JSON. -/
def rootData : List Nat := [123, 34]

/-- The empty engine state. -/
def st0 : DlSt := ⟨[], [], []⟩

/-- An environment where everything fails. -/
def envNone : Env := ⟨fun _ => none, fun _ => none, fun _ => none, fun _ => ""⟩

/-- Environment for the idempotence scenario: `cidR` resolves to a JSON
document containing `cidN`; fetching `cidN` always fails. -/
def envC8 : Env :=
  ⟨fun c => if c == cidR then some rootData else none,
   fun d => if d == rootData then some (JVal.str cidN) else none,
   fun t => if t == "doc" then some (JVal.str cidN) else none,
   fun _ => "doc"⟩

/-- State after the first `download_cid(cidR)` call in the scenario above. -/
def stC8 : DlSt := (downloadCid envC8 3 cidR st0).2.1

/-- A state in which identifier `ab` is already stored as opaque binary. -/
def stBin : DlSt := ⟨[("ab" ++ ".bin", [1, 2, 3])], [], []⟩

/-- A state in which the root document and its nested reference both exist. -/
def stBoth : DlSt :=
  ⟨[(cidR ++ ".json", rootData), (cidN ++ ".bin", [9])], [cidR, cidN], [cidR, cidN]⟩

/-! ## Theorems: the retry loop -/

theorem dlLoop_all_fail (att : Nat → Option (Nat × List Nat))
    (h : ∀ i, attemptOk (att i) = false) :
    ∀ k made, dlLoop att k made = (none, made + k) := by
  intro k
  induction k with
  | zero => intro made; simp [dlLoop]
  | succ k ih =>
    intro made
    have hm := h made
    cases ha : att made with
    | none =>
      rw [show made + (k + 1) = (made + 1) + k by omega]
      simp [dlLoop, ha, ih]
    | some p =>
      obtain ⟨s, c⟩ := p
      rw [ha] at hm
      have hcond : (s == 200 && decide (1000 < c.length)) = false := by
        simpa [attemptOk] using hm
      rw [show made + (k + 1) = (made + 1) + k by omega]
      simp [dlLoop, ha, hcond, ih]

/-- C4: when every attempt fails (exception, bad status, or body at most the
size threshold), `_download` makes exactly 40 attempts and returns `None`. -/
theorem c4_retry_bound (att : Nat → Option (Nat × List Nat))
    (h : ∀ i, attemptOk (att i) = false) :
    gatewayFetch att = (none, 40) := by
  simpa [gatewayFetch] using dlLoop_all_fail att h 40 0

/-- Witness for C4 at the always-raising oracle. -/
theorem c4_retry_bound_witness :
    gatewayFetch (fun _ => none) = (none, 40) :=
  c4_retry_bound (fun _ => none) (fun _ => rfl)

/-- C5: an attempt is accepted iff its status is 200 and its body strictly
exceeds 1000 bytes; a constant 200/999-byte response exhausts all 40
attempts and fails, a 200/1001-byte response succeeds on attempt one. -/
theorem c5_size_threshold (s : Nat) (c : List Nat) :
    (attemptOk (some (s, c)) = true ↔ (s = 200 ∧ 1000 < c.length))
    ∧ (c.length = 999 → gatewayFetch (fun _ => some (200, c)) = (none, 40))
    ∧ (c.length = 1001 → gatewayFetch (fun _ => some (200, c)) = (some c, 1)) := by
  refine ⟨?_, ?_, ?_⟩
  · simp [attemptOk]
  · intro h999
    have hfail : ∀ i : Nat, attemptOk ((fun _ : Nat => some (200, c)) i) = false := by
      intro i; simp [attemptOk, h999]
    simpa [gatewayFetch] using dlLoop_all_fail (fun _ => some (200, c)) hfail 40 0
  · intro h1001
    simp [gatewayFetch, dlLoop, h1001]

/-- Witness for C5 at concrete 999- and 1001-byte bodies. -/
theorem c5_size_threshold_witness :
    gatewayFetch (fun _ => some (200, List.replicate 999 0)) = (none, 40)
    ∧ gatewayFetch (fun _ => some (200, List.replicate 1001 0)) =
        (some (List.replicate 1001 0), 1) :=
  ⟨(c5_size_threshold 200 (List.replicate 999 0)).2.1 (by rw [List.length_replicate]),
   (c5_size_threshold 200 (List.replicate 1001 0)).2.2 (by rw [List.length_replicate])⟩

/-! ## Theorems: the classifier -/

theorem classify_eq_classifySpec (f : List Nat → Bool) (d : List Nat) :
    classify f d = classifySpec f d := by
  cases h1 : htmlOk d <;> cases h2 : pngOk d <;> cases h3 : jpgOk d <;>
    cases h4 : gifOk d <;> cases h5 : webpOk d <;> cases h6 : mp4Ok d <;>
    cases h7 : glbOk d <;>
    simp [classify, classifySpec, firstSig, sigTable, List.find?,
      h1, h2, h3, h4, h5, h6, h7]

/-- C3: the classifier agrees with the spec's ordered first-match over the 7
signatures; when a binary signature matches, the result is independent of
the JSON-parse outcome (JSON is attempted only after all binary checks); and
when none matches, the result is `.json` or `.bin` by the JSON parse. -/
theorem c3_classifier_ordered (j j' : List Nat → Bool) (d : List Nat) :
    classify j d = classifySpec j d
    ∧ ((firstSig d).isSome = true → classify j d = classify j' d)
    ∧ (firstSig d = none → classify j d = if j d then ".json" else ".bin") := by
  refine ⟨classify_eq_classifySpec j d, ?_, ?_⟩
  · intro hs
    rw [classify_eq_classifySpec j d, classify_eq_classifySpec j' d]
    cases hfs : firstSig d with
    | none => rw [hfs] at hs; simp at hs
    | some e => simp [classifySpec, hfs]
  · intro hn
    rw [classify_eq_classifySpec j d]
    simp [classifySpec, hn]

/-- Witness for C3: a PNG-signed input classifies independently of the JSON
oracle, and an unsigned input follows the JSON parse outcome. -/
theorem c3_classifier_ordered_witness :
    classify (fun _ => true) pngSig = classify (fun _ => false) pngSig
    ∧ classify (fun _ => true) [32] = ".json"
    ∧ classify (fun _ => false) [32] = ".bin" :=
  ⟨(c3_classifier_ordered (fun _ => true) (fun _ => false) pngSig).2.1 (by decide),
   (c3_classifier_ordered (fun _ => true) (fun _ => true) [32]).2.2 (by decide),
   (c3_classifier_ordered (fun _ => false) (fun _ => false) [32]).2.2 (by decide)⟩

/-! ## Theorems: walker self-exclusion -/

theorem not_mem_findCidsFiltered (s p : String) : p ∉ findCidsFiltered s p := by
  intro h
  rw [findCidsFiltered, List.mem_filter] at h
  simp at h

theorem extract_not_parent_aux : ∀ k : Nat,
    (∀ (doc : JVal) (p : String), sizeOf doc ≤ k → p ∉ extractAllCids doc p)
    ∧ (∀ (xs : List JVal) (p : String), sizeOf xs ≤ k → p ∉ extractArr xs p)
    ∧ (∀ (kvs : List (String × JVal)) (p : String), sizeOf kvs ≤ k → p ∉ extractObj kvs p) := by
  intro k
  induction k with
  | zero =>
    refine ⟨?_, ?_, ?_⟩
    · intro doc p hs; exfalso; cases doc <;> simp_arith at hs
    · intro xs p hs; exfalso; cases xs <;> simp_arith at hs
    · intro kvs p hs; exfalso; cases kvs <;> simp_arith at hs
  | succ k ih =>
    obtain ⟨ih1, ih2, ih3⟩ := ih
    refine ⟨?_, ?_, ?_⟩
    · intro doc p hs
      cases doc with
      | str s => simp only [extractAllCids]; exact not_mem_findCidsFiltered s p
      | num n => simp [extractAllCids]
      | bool b => simp [extractAllCids]
      | null => simp [extractAllCids]
      | arr xs =>
        simp only [extractAllCids]
        exact ih2 xs p (by simp_arith at hs; omega)
      | obj kvs =>
        simp only [extractAllCids]
        exact ih3 kvs p (by simp_arith at hs; omega)
    · intro xs p hs
      cases xs with
      | nil => simp [extractArr]
      | cons v rest =>
        simp only [extractArr, List.mem_append]
        intro h
        rcases h with h | h
        · exact ih1 v p (by simp_arith at hs; omega) h
        · exact ih2 rest p (by simp_arith at hs; omega) h
    · intro kvs p hs
      cases kvs with
      | nil => simp [extractObj]
      | cons kv rest =>
        obtain ⟨a, v⟩ := kv
        simp only [extractObj, List.mem_append]
        intro h
        rcases h with h | h
        · exact ih1 v p (by simp_arith at hs; omega) h
        · exact ih3 rest p (by simp_arith at hs; omega) h

/-- C6: the document walker invoked with a parent identifier never returns
that parent, whatever the document and however deep the parent occurs. -/
theorem c6_self_exclusion (doc : JVal) (p : String) :
    (extractAllCids doc p).contains p = false := by
  cases hc : (extractAllCids doc p).contains p with
  | false => rfl
  | true =>
    exfalso
    exact (extract_not_parent_aux (sizeOf doc)).1 doc p le_rfl
      (List.mem_of_elem_eq_true hc)

/-! ## Theorems: length accounting for the pattern matcher -/

theorem litCI_length : ∀ (lit s r : List Char), litCI lit s = some r →
    r.length + lit.length = s.length := by
  intro lit
  induction lit with
  | nil =>
    intro s r h
    simp only [litCI, Option.some.injEq] at h
    subst h; simp
  | cons c cs ih =>
    intro s r h
    cases s with
    | nil => simp [litCI] at h
    | cons x xs =>
      simp only [litCI] at h
      by_cases hx : (x.toLower == c) = true
      · rw [if_pos hx] at h
        have := ih xs r h
        simp [List.length_cons]
        omega
      · rw [if_neg hx] at h; simp at h

theorem takeAlnum_length : ∀ (n : Nat) (s t r : List Char), takeAlnum n s = some (t, r) →
    t.length = n ∧ r.length + n = s.length := by
  intro n
  induction n with
  | zero =>
    intro s t r h
    simp only [takeAlnum, Option.some.injEq, Prod.mk.injEq] at h
    obtain ⟨h1, h2⟩ := h
    subst h1; subst h2; simp
  | succ n ih =>
    intro s t r h
    cases s with
    | nil => simp [takeAlnum] at h
    | cons c rest =>
      simp only [takeAlnum] at h
      by_cases hc : isAlnumC c = true
      · rw [if_pos hc] at h
        cases ht : takeAlnum n rest with
        | none => rw [ht] at h; simp at h
        | some p =>
          obtain ⟨t', r'⟩ := p
          rw [ht] at h
          simp only [Option.some.injEq, Prod.mk.injEq] at h
          obtain ⟨h1, h2⟩ := h
          have := ih rest t' r' ht
          subst h1; subst h2
          constructor
          · simp; omega
          · simp [List.length_cons]; omega
      · rw [if_neg hc] at h; simp at h

theorem alnumRun_length : ∀ s : List Char,
    (alnumRun s).1.length + (alnumRun s).2.length = s.length := by
  intro s
  induction s with
  | nil => simp [alnumRun]
  | cons c rest ih =>
    by_cases hc : isAlnumC c = true
    · simp [alnumRun, hc]; omega
    · simp [alnumRun, hc]

theorem qmBody_length : ∀ (s cap rem : List Char), qmBody s = some (cap, rem) →
    rem.length + 46 ≤ s.length := by
  intro s cap rem h
  cases s with
  | nil => simp [qmBody] at h
  | cons a s1 =>
    cases s1 with
    | nil => simp [qmBody] at h
    | cons b rest =>
      simp only [qmBody] at h
      by_cases hab : (a.toLower == 'q' && b.toLower == 'm') = true
      · rw [if_pos hab] at h
        cases ht : takeAlnum 44 rest with
        | none => rw [ht] at h; simp at h
        | some p =>
          obtain ⟨t, r⟩ := p
          rw [ht] at h
          simp only [Option.some.injEq, Prod.mk.injEq] at h
          obtain ⟨-, h2⟩ := h
          subst h2
          have := (takeAlnum_length 44 rest t r ht).2
          simp [List.length_cons]
          omega
      · rw [if_neg hab] at h; simp at h

theorem bafBody_length : ∀ (s cap rem : List Char), bafBody s = some (cap, rem) →
    rem.length + 46 ≤ s.length := by
  intro s cap rem h
  cases s with
  | nil => simp [bafBody] at h
  | cons a s1 =>
    cases s1 with
    | nil => simp [bafBody] at h
    | cons b s2 =>
      cases s2 with
      | nil => simp [bafBody] at h
      | cons c rest =>
        simp only [bafBody] at h
        by_cases habc : (a.toLower == 'b' && b.toLower == 'a' && c.toLower == 'f') = true
        · rw [if_pos habc] at h
          by_cases hlen : 50 ≤ (alnumRun rest).1.length
          · rw [if_pos hlen] at h
            simp only [Option.some.injEq, Prod.mk.injEq] at h
            obtain ⟨-, h2⟩ := h
            subst h2
            have := alnumRun_length rest
            simp [List.length_cons]
            omega
          · rw [if_neg hlen] at h; simp at h
        · rw [if_neg habc] at h; simp at h

theorem cidBody_length : ∀ (s cap rem : List Char), cidBody s = some (cap, rem) →
    rem.length + 46 ≤ s.length := by
  intro s cap rem h
  simp only [cidBody] at h
  cases hq : qmBody s with
  | some r0 =>
    rw [hq] at h
    simp only [Option.some.injEq] at h
    subst h
    exact qmBody_length s _ _ hq
  | none =>
    rw [hq] at h
    exact bafBody_length s cap rem h

theorem starThen_length (cls : Char → Bool) (k : List Char → Option (List Char × List Char))
    (hk : ∀ s cap rem, k s = some (cap, rem) → rem.length + 46 ≤ s.length) :
    ∀ s cap rem, starThen cls k s = some (cap, rem) → rem.length + 46 ≤ s.length := by
  intro s
  induction s with
  | nil =>
    intro cap rem h
    simp only [starThen] at h
    exact hk [] cap rem h
  | cons c rest ih =>
    intro cap rem h
    simp only [starThen] at h
    by_cases hc : cls c = true
    · rw [if_pos hc] at h
      cases hs : starThen cls k rest with
      | some r0 =>
        rw [hs] at h
        simp only [Option.some.injEq] at h
        subst h
        have := ih cap rem hs
        simp [List.length_cons]
        omega
      | none =>
        rw [hs] at h
        have := hk (c :: rest) cap rem h
        omega
    · rw [if_neg hc] at h
      exact hk (c :: rest) cap rem h

theorem hostTail_length : ∀ (s cap rem : List Char), hostTail s = some (cap, rem) →
    rem.length + 46 ≤ s.length := by
  intro s cap rem h
  rw [hostTail.eq_def] at h
  split at h
  · rename_i s5 hl
    split at h
    · rename_i r0 hc
      simp only [Option.some.injEq] at h
      subst h
      have := cidBody_length s5 cap rem hc
      have hs5 := litCI_length _ s s5 hl
      simp at hs5
      omega
    · rename_i hc
      exact cidBody_length s cap rem h
  · rename_i hl
    exact cidBody_length s cap rem h

theorem hostAfterSlash_length : ∀ (s cap rem : List Char), hostAfterSlash s = some (cap, rem) →
    rem.length + 46 ≤ s.length := by
  intro s cap rem h
  rw [hostAfterSlash.eq_def] at h
  split at h
  · rename_i s4
    have := hostTail_length s4 cap rem h
    simp [List.length_cons]
    omega
  · simp at h

theorem hostOuterK_length : ∀ (s cap rem : List Char), hostOuterK s = some (cap, rem) →
    rem.length + 46 ≤ s.length := by
  intro s cap rem h
  simp only [hostOuterK] at h
  cases hl : litCI ['i', 'p', 'f', 's'] s with
  | none => rw [hl] at h; simp at h
  | some s2 =>
    rw [hl] at h
    have hs2 := litCI_length _ s s2 hl
    have := starThen_length notSlashSpace hostAfterSlash hostAfterSlash_length s2 cap rem h
    simp at hs2
    omega

theorem hostPart_length : ∀ (s cap rem : List Char), hostPart s = some (cap, rem) →
    rem.length + 46 ≤ s.length :=
  starThen_length notSlashSpace hostOuterK hostOuterK_length

theorem httpAlt_length : ∀ (s cap rem : List Char), httpAlt s = some (cap, rem) →
    rem.length + 46 ≤ s.length := by
  intro s cap rem h
  rw [httpAlt.eq_def] at h
  split at h
  · simp at h
  · rename_i s1 h4
    have hs1 := litCI_length _ s s1 h4
    simp at hs1
    split at h
    · rename_i s2 h5
      have hs2 := litCI_length _ s1 s2 h5
      simp at hs2
      split at h
      · rename_i r0 hh
        simp only [Option.some.injEq] at h
        subst h
        have := hostPart_length s2 cap rem hh
        omega
      · rename_i hh
        split at h
        · rename_i s2b h6
          have hs2b := litCI_length _ s1 s2b h6
          have := hostPart_length s2b cap rem h
          simp at hs2b
          omega
        · simp at h
    · rename_i h5
      split at h
      · rename_i s2 h6
        have hs2 := litCI_length _ s1 s2 h6
        have := hostPart_length s2 cap rem h
        simp at hs2
        omega
      · simp at h

theorem ipfsAlt_length : ∀ (s cap rem : List Char), ipfsAlt s = some (cap, rem) →
    rem.length + 46 ≤ s.length := by
  intro s cap rem h
  simp only [ipfsAlt] at h
  cases hl : litCI ['i', 'p', 'f', 's', ':', '/', '/'] s with
  | none => rw [hl] at h; simp at h
  | some s1 =>
    rw [hl] at h
    have hs1 := litCI_length _ s s1 hl
    have := cidBody_length s1 cap rem h
    simp at hs1
    omega

theorem matchCid_length : ∀ (s cap rem : List Char), matchCid s = some (cap, rem) →
    rem.length + 46 ≤ s.length := by
  intro s cap rem h
  rw [matchCid.eq_def] at h
  split at h
  · rename_i r0 h1
    simp only [Option.some.injEq] at h
    subst h
    exact httpAlt_length s cap rem h1
  · rename_i h1
    split at h
    · rename_i r0 h2
      simp only [Option.some.injEq] at h
      subst h
      exact ipfsAlt_length s cap rem h2
    · rename_i h2
      exact cidBody_length s cap rem h

theorem matchCid_short (s : List Char) (h : s.length < 46) : matchCid s = none := by
  cases hm : matchCid s with
  | none => rfl
  | some p =>
    exfalso
    have := matchCid_length s p.1 p.2 (by rw [hm])
    omega

theorem scanAux_short : ∀ (n : Nat) (s : List Char), s.length < 46 → scanAux n s = [] := by
  intro n
  induction n with
  | zero => intro s h; simp [scanAux]
  | succ n ih =>
    intro s h
    cases s with
    | nil => simp [scanAux]
    | cons c rest =>
      have hm : matchCid (c :: rest) = none := matchCid_short _ h
      have hr : rest.length < 46 := by simp [List.length_cons] at h; omega
      simp [scanAux, hm, ih rest hr]

/-! ## Theorems: head-character and exact-match facts for the pattern -/

theorem matchCid_head (c : Char) (s : List Char)
    (hh : (c.toLower == 'h') = false) (hi : (c.toLower == 'i') = false)
    (hq : (c.toLower == 'q') = false) (hb : (c.toLower == 'b') = false) :
    matchCid (c :: s) = none := by
  cases s with
  | nil => simp [matchCid, httpAlt, ipfsAlt, cidBody, qmBody, bafBody, litCI, hh, hi, hq, hb]
  | cons b2 s2 =>
    cases s2 with
    | nil => simp [matchCid, httpAlt, ipfsAlt, cidBody, qmBody, bafBody, litCI, hh, hi, hq, hb]
    | cons c3 s3 =>
      simp [matchCid, httpAlt, ipfsAlt, cidBody, qmBody, bafBody, litCI, hh, hi, hq, hb]

theorem matchCid_space (c : Char) (s : List Char) (h : isSpaceC c = true) :
    matchCid (c :: s) = none := by
  have hc := h
  simp [isSpaceC] at hc
  rcases hc with ((((rfl | rfl) | rfl) | rfl) | rfl) | rfl <;>
    exact matchCid_head _ _ (by decide) (by decide) (by decide) (by decide)

theorem scanAux_skip : ∀ (u : List Char) (n : Nat) (s : List Char),
    (∀ c ∈ u, isSpaceC c = true) → scanAux (u.length + n) (u ++ s) = scanAux n s := by
  intro u
  induction u with
  | nil => intro n s _; simp
  | cons c u' ih =>
    intro n s h
    have hc : isSpaceC c = true := h c (by simp)
    have hnone : matchCid (c :: (u' ++ s)) = none := matchCid_space c _ hc
    rw [show (c :: u').length + n = (u'.length + n) + 1 from by
      simp only [List.length_cons]; omega]
    show scanAux ((u'.length + n) + 1) (c :: (u' ++ s)) = scanAux n s
    simp only [scanAux, hnone]
    exact ih n s (fun x hx => h x (by simp [hx]))

theorem takeAlnum_exact : ∀ (t v : List Char), (∀ c ∈ t, isAlnumC c = true) →
    takeAlnum t.length (t ++ v) = some (t, v) := by
  intro t
  induction t with
  | nil => intro v _; simp [takeAlnum]
  | cons c t' ih =>
    intro v h
    have hc : isAlnumC c = true := h c (by simp)
    have ih' := ih v (fun x hx => h x (by simp [hx]))
    simp [takeAlnum, hc, ih']

theorem alnumRun_all : ∀ t : List Char, (∀ c ∈ t, isAlnumC c = true) →
    alnumRun t = (t, []) := by
  intro t
  induction t with
  | nil => intro _; simp [alnumRun]
  | cons c t' ih =>
    intro h
    have hc : isAlnumC c = true := h c (by simp)
    have ih' := ih (fun x hx => h x (by simp [hx]))
    simp [alnumRun, hc, ih']

theorem matchCid_qm (a b : Char) (rest t r : List Char)
    (hq : (a.toLower == 'q') = true) (hm : (b.toLower == 'm') = true)
    (hh : (a.toLower == 'h') = false) (hi : (a.toLower == 'i') = false)
    (h44 : takeAlnum 44 rest = some (t, r)) :
    matchCid (a :: b :: rest) = some (a :: b :: t, r) := by
  simp [matchCid, httpAlt, ipfsAlt, cidBody, qmBody, litCI, hh, hi, hq, hm, h44]

theorem matchCid_baf (a b c : Char) (rest run rem : List Char)
    (hb : (a.toLower == 'b') = true) (ha : (b.toLower == 'a') = true)
    (hf : (c.toLower == 'f') = true)
    (hh : (a.toLower == 'h') = false) (hi : (a.toLower == 'i') = false)
    (hq : (a.toLower == 'q') = false)
    (hrun : alnumRun rest = (run, rem)) (hlen : 50 ≤ run.length) :
    matchCid (a :: b :: c :: rest) = some (a :: b :: c :: run, rem) := by
  simp [matchCid, httpAlt, ipfsAlt, cidBody, qmBody, bafBody, litCI,
    hh, hi, hq, hb, ha, hf, hrun, hlen]

theorem base58_alnum (c : Char) (h : isBase58C c = true) : isAlnumC c = true := by
  simp [isBase58C] at h
  exact h.1

/-! ## Theorems: the recognizer claims -/

/-- C1 counterexample: the claim fails as stated. When the embedded V0 token
`Qm` + 44 base58 chars is immediately preceded by `Qm`, `finditer` matches a
shifted 46-character window and never yields the token itself; and a token of
`Qm` + 45 base58 chars (total length 47) DOES produce a match (its 46-char
prefix), where the claim demands no match. -/
theorem c1_recognizer_counterexample :
    ((findIdentifiers ("Qm" ++ ("Qm" ++ String.mk (List.replicate 44 '1')))).contains
        ("Qm" ++ String.mk (List.replicate 44 '1'))) = false
    ∧ findIdentifiers ("Qm" ++ String.mk (List.replicate 45 '1')) ≠ [] := by
  constructor
  · decide
  · decide

/-- C1 (amended): for every string in which the V0 token `Qm` + 44 base58
characters occurs preceded only by whitespace, the recognizer yields exactly
that 46-character substring (an immediately preceding alphanumeric character
can shift the matched window instead); a candidate of total length 45 yields
no match; and a candidate of total length 47 yields a match consisting of
its first 46 characters rather than no match. -/
theorem c1_recognition_amended :
    (∀ (u t v : List Char), (∀ c ∈ u, isSpaceC c = true) → t.length = 44 →
        (∀ c ∈ t, isBase58C c = true) →
        String.mk ('Q' :: 'm' :: t) ∈ findIdentifiers (String.mk (u ++ ('Q' :: 'm' :: t) ++ v)))
    ∧ (∀ t : List Char, t.length = 43 → (∀ c ∈ t, isBase58C c = true) →
        findIdentifiers (String.mk ('Q' :: 'm' :: t)) = [])
    ∧ (∀ t : List Char, t.length = 45 → (∀ c ∈ t, isBase58C c = true) →
        findIdentifiers (String.mk ('Q' :: 'm' :: t)) = [String.mk ('Q' :: 'm' :: t.take 44)]) := by
  refine ⟨?_, ?_, ?_⟩
  · intro u t v hu ht hb
    have htal : ∀ c ∈ t, isAlnumC c = true := fun c hc => base58_alnum c (hb c hc)
    have h44 : takeAlnum 44 (t ++ v) = some (t, v) := by
      have h := takeAlnum_exact t v htal
      rwa [ht] at h
    have hQ : matchCid ('Q' :: 'm' :: (t ++ v)) = some ('Q' :: 'm' :: t, v) :=
      matchCid_qm 'Q' 'm' (t ++ v) t v (by decide) (by decide) (by decide) (by decide) h44
    show String.mk ('Q' :: 'm' :: t) ∈
      (scanAux (u ++ ('Q' :: 'm' :: t) ++ v).length (u ++ ('Q' :: 'm' :: t) ++ v)).map
        (fun l => String.mk l)
    rw [List.append_assoc]
    rw [show (u ++ (('Q' :: 'm' :: t) ++ v)).length = u.length + ((45 + v.length) + 1) from by
      simp only [List.length_append, List.length_cons, ht]; omega]
    rw [scanAux_skip u ((45 + v.length) + 1) _ hu]
    show String.mk ('Q' :: 'm' :: t) ∈
      (scanAux ((45 + v.length) + 1) ('Q' :: 'm' :: (t ++ v))).map (fun l => String.mk l)
    simp only [scanAux, hQ]
    exact List.mem_map_of_mem _ (List.mem_cons_self _ _)
  · intro t ht hb
    have hlen : ('Q' :: 'm' :: t).length < 46 := by
      simp only [List.length_cons, ht]; omega
    show (scanAux ('Q' :: 'm' :: t).length ('Q' :: 'm' :: t)).map (fun l => String.mk l) = []
    rw [scanAux_short _ _ hlen]
    rfl
  · intro t ht hb
    have htal : ∀ c ∈ t, isAlnumC c = true := fun c hc => base58_alnum c (hb c hc)
    have htake : (t.take 44).length = 44 := by
      simp [List.length_take, ht]
    have h44 : takeAlnum 44 t = some (t.take 44, t.drop 44) := by
      have h := takeAlnum_exact (t.take 44) (t.drop 44)
        (fun c hc => htal c (List.take_subset 44 t hc))
      rw [htake] at h
      rwa [List.take_append_drop] at h
    have hQ := matchCid_qm 'Q' 'm' t (t.take 44) (t.drop 44)
      (by decide) (by decide) (by decide) (by decide) h44
    have hdrop : (t.drop 44).length < 46 := by
      simp only [List.length_drop, ht]; omega
    show (scanAux ('Q' :: 'm' :: t).length ('Q' :: 'm' :: t)).map (fun l => String.mk l) =
      [String.mk ('Q' :: 'm' :: t.take 44)]
    rw [show ('Q' :: 'm' :: t).length = 46 + 1 from by simp [List.length_cons, ht]]
    simp only [scanAux, hQ]
    rw [scanAux_short 46 _ hdrop]
    rfl

/-- Witness for the amended C1 at concrete base58 tokens. -/
theorem c1_recognition_amended_witness :
    String.mk ('Q' :: 'm' :: List.replicate 44 '1') ∈
      findIdentifiers (String.mk ([' '] ++ ('Q' :: 'm' :: List.replicate 44 '1') ++ ['#']))
    ∧ findIdentifiers (String.mk ('Q' :: 'm' :: List.replicate 43 '1')) = []
    ∧ findIdentifiers (String.mk ('Q' :: 'm' :: List.replicate 45 '1')) =
      [String.mk ('Q' :: 'm' :: (List.replicate 45 '1').take 44)] :=
  ⟨c1_recognition_amended.1 [' '] (List.replicate 44 '1') ['#']
      (by decide) (by decide) (by decide),
   c1_recognition_amended.2.1 (List.replicate 43 '1') (by decide) (by decide),
   c1_recognition_amended.2.2 (List.replicate 45 '1') (by decide) (by decide)⟩

/-- C2 counterexample: identifier bodies are NOT matched case-sensitively.
`qm` + 44 digits (wrong case for the V0 literal) and `BAF` + 50 uppercase
letters (wrong case for the V1 pattern) are both returned by the recognizer,
where the claim demands no identifier. -/
theorem c2_case_counterexample :
    findIdentifiers ("qm" ++ String.mk (List.replicate 44 '1')) =
      ["qm" ++ String.mk (List.replicate 44 '1')]
    ∧ findIdentifiers ("BAF" ++ String.mk (List.replicate 50 'A')) =
      ["BAF" ++ String.mk (List.replicate 50 'A')] := by
  constructor
  · decide
  · decide

/-- C2 (amended): because `re.I` is applied to the whole compiled pattern,
matching is case-insensitive for the identifier bodies as well as the
scaffold: any `qm`-led 46-character alphanumeric token matches as V0, and
any `BAF`-led token with 50 alphanumerics matches as V1. -/
theorem c2_case_insensitive_amended :
    (∀ t : List Char, t.length = 44 → (∀ c ∈ t, isAlnumC c = true) →
        findIdentifiers (String.mk ('q' :: 'm' :: t)) = [String.mk ('q' :: 'm' :: t)])
    ∧ (∀ t : List Char, t.length = 50 → (∀ c ∈ t, isAlnumC c = true) →
        findIdentifiers (String.mk ('B' :: 'A' :: 'F' :: t)) =
          [String.mk ('B' :: 'A' :: 'F' :: t)]) := by
  constructor
  · intro t ht hal
    have h44 : takeAlnum 44 (t ++ []) = some (t, []) := by
      have h := takeAlnum_exact t [] hal
      rwa [ht] at h
    rw [List.append_nil] at h44
    have hQ := matchCid_qm 'q' 'm' t t [] (by decide) (by decide) (by decide) (by decide) h44
    show (scanAux ('q' :: 'm' :: t).length ('q' :: 'm' :: t)).map (fun l => String.mk l) =
      [String.mk ('q' :: 'm' :: t)]
    rw [show ('q' :: 'm' :: t).length = 45 + 1 from by simp [List.length_cons, ht]]
    simp only [scanAux, hQ]
    rfl
  · intro t ht hal
    have hrun : alnumRun t = (t, []) := alnumRun_all t hal
    have hB := matchCid_baf 'B' 'A' 'F' t t []
      (by decide) (by decide) (by decide) (by decide) (by decide) (by decide)
      hrun (by simp [ht])
    show (scanAux ('B' :: 'A' :: 'F' :: t).length ('B' :: 'A' :: 'F' :: t)).map
        (fun l => String.mk l) = [String.mk ('B' :: 'A' :: 'F' :: t)]
    rw [show ('B' :: 'A' :: 'F' :: t).length = 52 + 1 from by simp [List.length_cons, ht]]
    simp only [scanAux, hB]
    rfl

/-- Witness for the amended C2 at concrete tokens. -/
theorem c2_case_insensitive_amended_witness :
    findIdentifiers (String.mk ('q' :: 'm' :: List.replicate 44 '1')) =
      [String.mk ('q' :: 'm' :: List.replicate 44 '1')]
    ∧ findIdentifiers (String.mk ('B' :: 'A' :: 'F' :: List.replicate 50 'A')) =
      [String.mk ('B' :: 'A' :: 'F' :: List.replicate 50 'A')] :=
  ⟨c2_case_insensitive_amended.1 (List.replicate 44 '1') (by decide) (by decide),
   c2_case_insensitive_amended.2 (List.replicate 50 'A') (by decide) (by decide)⟩

/-! ## Theorems: branch shapes of the traversal engine -/

theorem existsOn_of_findExt_some (cid : String) (st : DlSt) (e : String)
    (h : findExt cid st = some e) : existsOn cid st = true := by
  simp only [findExt] at h
  simp only [existsOn, List.any_eq_true]
  refine ⟨e, List.mem_of_find?_eq_some h, ?_⟩
  have := List.find?_some h
  simpa using this

theorem existsOn_eq_false_of_findExt_none (cid : String) (st : DlSt)
    (h : findExt cid st = none) : existsOn cid st = false := by
  rw [findExt, List.find?_eq_none] at h
  cases hx : existsOn cid st with
  | false => rfl
  | true =>
    exfalso
    simp only [existsOn, List.any_eq_true] at hx
    obtain ⟨e, he, hk⟩ := hx
    exact (h e he) hk

theorem findExt_isSome (cid : String) (st : DlSt) (h : existsOn cid st = true) :
    ∃ e, findExt cid st = some e := by
  cases hf : findExt cid st with
  | some e => exact ⟨e, rfl⟩
  | none =>
    exfalso
    have := existsOn_eq_false_of_findExt_none cid st hf
    rw [h] at this
    simp at this

theorem downloadCid_exists_branch (env : Env) (n : Nat) (cid0 : String) (st : DlSt)
    (e : String) (hf : findExt (stripPy cid0) st = some e) :
    downloadCid env (n + 1) cid0 st =
      (true, (downloadList (downloadCid env n) (nestedExisting env (stripPy cid0) st) st).1,
       (downloadList (downloadCid env n) (nestedExisting env (stripPy cid0) st) st).2) := by
  simp only [downloadCid, hf]

theorem downloadCid_fetch_none (env : Env) (n : Nat) (cid0 : String) (st : DlSt)
    (hf : findExt (stripPy cid0) st = none) (hd : env.fetch (stripPy cid0) = none) :
    downloadCid env (n + 1) cid0 st = (false, st, 1) := by
  simp only [downloadCid, hf, hd]

theorem downloadCid_fetch_empty (env : Env) (n : Nat) (cid0 : String) (st : DlSt)
    (data : List Nat) (hf : findExt (stripPy cid0) st = none)
    (hd : env.fetch (stripPy cid0) = some data) (hne : data.isEmpty = true) :
    downloadCid env (n + 1) cid0 st = (false, st, 1) := by
  simp [downloadCid, hf, hd, hne]

theorem downloadCid_fresh_doc (env : Env) (n : Nat) (cid0 : String) (st : DlSt)
    (data : List Nat) (e : String) (hf : findExt (stripPy cid0) st = none)
    (hd : env.fetch (stripPy cid0) = some data) (hne : data.isEmpty = false)
    (he : classify (jsonOkOf env) data = e) (hdoc : (e == ".json" || e == ".html") = true) :
    downloadCid env (n + 1) cid0 st =
      (true,
       (downloadList (downloadCid env n) (nestedOfData env (stripPy cid0) e data)
         ⟨(stripPy cid0 ++ e, data) :: st.files, addId (stripPy cid0) st.downloaded,
          addId (stripPy cid0) st.downloaded⟩).1,
       1 + (downloadList (downloadCid env n) (nestedOfData env (stripPy cid0) e data)
         ⟨(stripPy cid0 ++ e, data) :: st.files, addId (stripPy cid0) st.downloaded,
          addId (stripPy cid0) st.downloaded⟩).2) := by
  subst he
  simp [downloadCid, hf, hd, hne, hdoc]

theorem downloadCid_fresh_bin (env : Env) (n : Nat) (cid0 : String) (st : DlSt)
    (data : List Nat) (e : String) (hf : findExt (stripPy cid0) st = none)
    (hd : env.fetch (stripPy cid0) = some data) (hne : data.isEmpty = false)
    (he : classify (jsonOkOf env) data = e) (hdoc : (e == ".json" || e == ".html") = false) :
    downloadCid env (n + 1) cid0 st =
      (true,
       ⟨(stripPy cid0 ++ e, data) :: st.files, addId (stripPy cid0) st.downloaded,
        addId (stripPy cid0) st.downloaded⟩, 1) := by
  subst he
  simp [downloadCid, hf, hd, hne, hdoc]

/-! ## Theorems: storage monotonicity of the engine -/

theorem keyMem_cons (p : String × List Nat) (k : String) (fs : List (String × List Nat))
    (h : keyMem k fs = true) : keyMem k (p :: fs) = true := by
  simp only [keyMem, List.any_cons] at h ⊢
  simp [h]

theorem existsOn_cons (y : String) (st : DlSt) (p : String × List Nat)
    (dl pr : List String) (h : existsOn y st = true) :
    existsOn y ⟨p :: st.files, dl, pr⟩ = true := by
  simp only [existsOn, List.any_eq_true] at h ⊢
  obtain ⟨e, he, hk⟩ := h
  exact ⟨e, he, keyMem_cons p _ _ hk⟩

theorem downloadList_mono (dc : String → DlSt → Bool × DlSt × Nat)
    (hdc : ∀ c st k, keyMem k st.files = true → keyMem k ((dc c st).2.1).files = true) :
    ∀ (l : List String) (st : DlSt) (k : String),
      keyMem k st.files = true → keyMem k ((downloadList dc l st).1).files = true := by
  intro l
  induction l with
  | nil => intro st k h; simpa [downloadList] using h
  | cons c rest ih =>
    intro st k h
    cases he : existsOn c st with
    | true =>
      simp only [downloadList, he, if_true]
      exact ih st k h
    | false =>
      simp only [downloadList, he, Bool.false_eq_true, if_false]
      exact ih _ k (hdc c st k h)

theorem downloadCid_mono (env : Env) :
    ∀ (n : Nat) (c : String) (st : DlSt) (k : String),
      keyMem k st.files = true → keyMem k ((downloadCid env n c st).2.1).files = true := by
  intro n
  induction n with
  | zero => intro c st k h; simpa [downloadCid] using h
  | succ n ih =>
    intro c st k h
    cases hf : findExt (stripPy c) st with
    | some e =>
      rw [downloadCid_exists_branch env n c st e hf]
      exact downloadList_mono _ (fun c' st' k' => ih c' st' k') _ st k h
    | none =>
      cases hd : env.fetch (stripPy c) with
      | none =>
        rw [downloadCid_fetch_none env n c st hf hd]
        exact h
      | some data =>
        cases hne : data.isEmpty with
        | true =>
          rw [downloadCid_fetch_empty env n c st data hf hd hne]
          exact h
        | false =>
          cases hdoc : (classify (jsonOkOf env) data == ".json"
              || classify (jsonOkOf env) data == ".html") with
          | true =>
            rw [downloadCid_fresh_doc env n c st data _ hf hd hne rfl hdoc]
            exact downloadList_mono _ (fun c' st' k' => ih c' st' k') _ _ k
              (keyMem_cons _ _ _ h)
          | false =>
            rw [downloadCid_fresh_bin env n c st data _ hf hd hne rfl hdoc]
            exact keyMem_cons _ _ _ h

theorem existsOn_downloadCid (env : Env) (n : Nat) (c : String) (st : DlSt) (y : String)
    (h : existsOn y st = true) : existsOn y (downloadCid env n c st).2.1 = true := by
  simp only [existsOn, List.any_eq_true] at h ⊢
  obtain ⟨e, he, hk⟩ := h
  exact ⟨e, he, downloadCid_mono env n c st _ hk⟩

/-! ## Theorems: the progress-subset invariant -/

theorem classify_mem_extOrder (j : List Nat → Bool) (d : List Nat) :
    classify j d ∈ extOrder := by
  unfold classify
  split_ifs <;> simp [extOrder]

theorem mem_addId (cid x : String) (l : List String) (h : x ∈ addId cid l) :
    x = cid ∨ x ∈ l := by
  unfold addId at h
  split at h
  · exact Or.inr h
  · rcases List.mem_cons.mp h with h | h
    · exact Or.inl h
    · exact Or.inr h

theorem diskInv_insert (st : DlSt) (scid e : String) (data : List Nat)
    (h : diskInv st = true) (he : e ∈ extOrder) :
    diskInv ⟨(scid ++ e, data) :: st.files, addId scid st.downloaded,
      addId scid st.downloaded⟩ = true := by
  simp only [diskInv, Bool.and_eq_true, List.all_eq_true] at h ⊢
  obtain ⟨h1, _⟩ := h
  have key : ∀ x ∈ addId scid st.downloaded,
      existsOn x ⟨(scid ++ e, data) :: st.files, addId scid st.downloaded,
        addId scid st.downloaded⟩ = true := by
    intro x hx
    rcases mem_addId scid x st.downloaded hx with rfl | hx'
    · simp only [existsOn, List.any_eq_true]
      exact ⟨e, he, by simp [keyMem]⟩
    · exact existsOn_cons x st _ _ _ (h1 x hx')
  exact ⟨key, key⟩

theorem downloadList_inv (dc : String → DlSt → Bool × DlSt × Nat)
    (hdc : ∀ c st, diskInv st = true → diskInv ((dc c st).2.1) = true) :
    ∀ (l : List String) (st : DlSt), diskInv st = true →
      diskInv ((downloadList dc l st).1) = true := by
  intro l
  induction l with
  | nil => intro st h; simpa [downloadList] using h
  | cons c rest ih =>
    intro st h
    cases he : existsOn c st with
    | true =>
      simp only [downloadList, he, if_true]
      exact ih st h
    | false =>
      simp only [downloadList, he, Bool.false_eq_true, if_false]
      exact ih _ (hdc c st h)

theorem downloadCid_inv (env : Env) :
    ∀ (n : Nat) (c : String) (st : DlSt), diskInv st = true →
      diskInv ((downloadCid env n c st).2.1) = true := by
  intro n
  induction n with
  | zero => intro c st h; simpa [downloadCid] using h
  | succ n ih =>
    intro c st h
    cases hf : findExt (stripPy c) st with
    | some e =>
      rw [downloadCid_exists_branch env n c st e hf]
      exact downloadList_inv _ ih _ st h
    | none =>
      cases hd : env.fetch (stripPy c) with
      | none =>
        rw [downloadCid_fetch_none env n c st hf hd]
        exact h
      | some data =>
        cases hne : data.isEmpty with
        | true =>
          rw [downloadCid_fetch_empty env n c st data hf hd hne]
          exact h
        | false =>
          have hst1 := diskInv_insert st (stripPy c) (classify (jsonOkOf env) data) data h
            (classify_mem_extOrder (jsonOkOf env) data)
          cases hdoc : (classify (jsonOkOf env) data == ".json"
              || classify (jsonOkOf env) data == ".html") with
          | true =>
            rw [downloadCid_fresh_doc env n c st data _ hf hd hne rfl hdoc]
            exact downloadList_inv _ ih _ _ hst1
          | false =>
            rw [downloadCid_fresh_bin env n c st data _ hf hd hne rfl hdoc]
            exact hst1

/-! ## Theorems: identifiers with stored files never change membership -/

theorem downloadList_frozen (dc : String → DlSt → Bool × DlSt × Nat)
    (hmono : ∀ c st k, keyMem k st.files = true → keyMem k ((dc c st).2.1).files = true)
    (hdc : ∀ c st y, existsOn y st = true →
      (dc c st).2.1.downloaded.contains y = st.downloaded.contains y) :
    ∀ (l : List String) (st : DlSt) (y : String), existsOn y st = true →
      ((downloadList dc l st).1).downloaded.contains y = st.downloaded.contains y := by
  intro l
  induction l with
  | nil => intro st y _; rfl
  | cons c rest ih =>
    intro st y hy
    cases he : existsOn c st with
    | true =>
      simp only [downloadList, he, if_true]
      exact ih st y hy
    | false =>
      simp only [downloadList, he, Bool.false_eq_true, if_false]
      have hy1 : existsOn y (dc c st).2.1 = true := by
        simp only [existsOn, List.any_eq_true] at hy ⊢
        obtain ⟨e, he2, hk⟩ := hy
        exact ⟨e, he2, hmono c st _ hk⟩
      rw [ih _ y hy1, hdc c st y hy]

theorem contains_addId_of_ne (scid y : String) (l : List String) (h : scid ≠ y) :
    (addId scid l).contains y = l.contains y := by
  unfold addId
  split
  · rfl
  · have h1 : (scid == y) = false := by simp [h]
    have h2 : (y == scid) = false := by simp [h.symm]
    simp [List.contains_cons, h1, h2]
    intro heq
    exact absurd heq.symm h

theorem downloadCid_frozen (env : Env) :
    ∀ (n : Nat) (c : String) (st : DlSt) (y : String), existsOn y st = true →
      ((downloadCid env n c st).2.1).downloaded.contains y = st.downloaded.contains y := by
  intro n
  induction n with
  | zero => intro c st y _; rfl
  | succ n ih =>
    intro c st y hy
    cases hf : findExt (stripPy c) st with
    | some e =>
      rw [downloadCid_exists_branch env n c st e hf]
      exact downloadList_frozen _ (fun c' st' k' => downloadCid_mono env n c' st' k')
        (fun c' st' y' => ih c' st' y') _ st y hy
    | none =>
      have hex : existsOn (stripPy c) st = false := existsOn_eq_false_of_findExt_none _ _ hf
      have hne2 : stripPy c ≠ y := by
        intro heq
        rw [heq, hy] at hex
        simp at hex
      cases hd : env.fetch (stripPy c) with
      | none => rw [downloadCid_fetch_none env n c st hf hd]
      | some data =>
        cases hne : data.isEmpty with
        | true => rw [downloadCid_fetch_empty env n c st data hf hd hne]
        | false =>
          have hadd := contains_addId_of_ne (stripPy c) y st.downloaded hne2
          cases hdoc : (classify (jsonOkOf env) data == ".json"
              || classify (jsonOkOf env) data == ".html") with
          | true =>
            rw [downloadCid_fresh_doc env n c st data _ hf hd hne rfl hdoc]
            have hy1 : existsOn y ⟨(stripPy c ++ classify (jsonOkOf env) data, data) :: st.files,
                addId (stripPy c) st.downloaded, addId (stripPy c) st.downloaded⟩ = true :=
              existsOn_cons y st _ _ _ hy
            rw [downloadList_frozen _ (fun c' st' k' => downloadCid_mono env n c' st' k')
              (fun c' st' y' => ih c' st' y') _ _ y hy1]
            exact hadd
          | false =>
            rw [downloadCid_fresh_bin env n c st data _ hf hd hne rfl hdoc]
            exact hadd

/-! ## Theorems: the traversal-engine claims -/

/-- C7: when the identifier (after stripping) has no stored file and the
gateway fetch fails definitively, `download_cid` returns `False` with the
state (storage, `downloaded` set, progress file) exactly unchanged, after a
single `_download` invocation. -/
theorem c7_fetch_failure_frame (env : Env) (n : Nat) (cid : String) (st : DlSt)
    (h1 : existsOn (stripPy cid) st = false) (h2 : env.fetch (stripPy cid) = none) :
    downloadCid env (n + 1) cid st = (false, st, 1) := by
  have hf : findExt (stripPy cid) st = none := by
    cases hf : findExt (stripPy cid) st with
    | none => rfl
    | some e =>
      exfalso
      have := existsOn_of_findExt_some (stripPy cid) st e hf
      rw [h1] at this
      simp at this
  exact downloadCid_fetch_none env n cid st hf h2

/-- Witness for C7 at the empty state and an always-failing fetch. -/
theorem c7_fetch_failure_frame_witness :
    downloadCid envNone 1 "x" st0 = (false, st0, 1) :=
  c7_fetch_failure_frame envNone 0 "x" st0 (by decide) rfl

/-- C9: every engine operation preserves the invariant that each identifier
in the in-memory `downloaded` set and in the persisted progress file has a
classified file on disk (the write precedes the add-and-persist step, and
nothing enters the progress set without its file). -/
theorem c9_progress_subset_invariant (env : Env) (n : Nat) (cid : String) (st : DlSt)
    (h : diskInv st = true) : diskInv ((downloadCid env n cid st).2.1) = true :=
  downloadCid_inv env n cid st h

/-- Witness for C9 from the empty state. -/
theorem c9_progress_subset_invariant_witness :
    diskInv ((downloadCid envNone 1 "x" st0).2.1) = true :=
  c9_progress_subset_invariant envNone 1 "x" st0 (by decide)

/-- C10: on the existence-check path `download_cid` returns `True`; the
membership of every identifier that already has a stored file — in
particular the processed identifier itself — in the `downloaded` set is
unchanged (so identifiers whose files pre-existed the run are never counted);
and when the stored file is not `.json`/`.html`, the whole state is exactly
unchanged and no network call is made. -/
theorem c10_exists_path_frame (env : Env) (n : Nat) (cid : String) (st : DlSt)
    (h : existsOn (stripPy cid) st = true) :
    (downloadCid env (n + 1) cid st).1 = true
    ∧ (∀ y : String, existsOn y st = true →
        ((downloadCid env (n + 1) cid st).2.1).downloaded.contains y =
          st.downloaded.contains y)
    ∧ (∀ e : String, findExt (stripPy cid) st = some e →
        (e == ".json" || e == ".html") = false →
        downloadCid env (n + 1) cid st = (true, st, 0)) := by
  obtain ⟨e, hf⟩ := findExt_isSome _ _ h
  refine ⟨?_, ?_, ?_⟩
  · rw [downloadCid_exists_branch env n cid st e hf]
  · intro y hy
    rw [downloadCid_exists_branch env n cid st e hf]
    exact downloadList_frozen _ (fun c' st' k' => downloadCid_mono env n c' st' k')
      (fun c' st' y' => downloadCid_frozen env n c' st' y') _ st y hy
  · intro e' hf' hdoc
    rw [downloadCid_exists_branch env n cid st e' hf']
    have hnested : nestedExisting env (stripPy cid) st = [] := by
      simp [nestedExisting, hf', hdoc]
    rw [hnested]
    simp [downloadList]

/-- Witness for C10 at a state already holding `ab.bin`. -/
theorem c10_exists_path_frame_witness :
    (downloadCid envNone 1 "ab" stBin).1 = true
    ∧ downloadCid envNone 1 "ab" stBin = (true, stBin, 0) :=
  ⟨(c10_exists_path_frame envNone 0 "ab" stBin (by decide)).1,
   (c10_exists_path_frame envNone 0 "ab" stBin (by decide)).2.2 ".bin"
     (by decide) (by decide)⟩

/-- The nested loop is a no-op when every discovered identifier exists. -/
theorem downloadList_all_exist (dc : String → DlSt → Bool × DlSt × Nat) :
    ∀ (l : List String) (st : DlSt),
      (∀ c ∈ l, existsOn c st = true) → downloadList dc l st = (st, 0) := by
  intro l
  induction l with
  | nil => intro st _; rfl
  | cons c rest ih =>
    intro st h
    have hc := h c (by simp)
    simp only [downloadList, hc, if_true]
    exact ih st (fun x hx => h x (by simp [hx]))

/-- C8 counterexample: idempotence fails as claimed. In the environment
`envC8` the root document downloads successfully (the first call returns
`True` after 2 network calls) but its nested identifier's fetch fails; the
second call on the resulting state performs 1 further network call, not 0. -/
theorem c8_idempotence_counterexample :
    (downloadCid envC8 3 cidR st0).1 = true
    ∧ (downloadCid envC8 3 cidR st0).2.2 = 2
    ∧ (downloadCid envC8 3 cidR stC8).1 = true
    ∧ (downloadCid envC8 3 cidR stC8).2.2 ≠ 0 := by
  refine ⟨by decide, by decide, by decide, by decide⟩

/-- C8 (amended): the second call performs zero network calls and leaves the
state unchanged provided every nested identifier discoverable from the
stored document already exists on disk — which the first call guarantees
only when all of its recursive fetches succeeded; a failed nested fetch is
retried by the next call. -/
theorem c8_idempotence_amended (env : Env) (n : Nat) (cid : String) (st : DlSt)
    (h : existsOn (stripPy cid) st = true)
    (hnested : ∀ d ∈ nestedExisting env (stripPy cid) st, existsOn d st = true) :
    downloadCid env (n + 1) cid st = (true, st, 0) := by
  obtain ⟨e, hf⟩ := findExt_isSome _ _ h
  rw [downloadCid_exists_branch env n cid st e hf]
  rw [downloadList_all_exist _ _ st hnested]

/-- Witness for the amended C8: root and nested identifier both stored. -/
theorem c8_idempotence_amended_witness :
    downloadCid envC8 1 cidR stBoth = (true, stBoth, 0) :=
  c8_idempotence_amended envC8 0 cidR stBoth (by decide) (by decide)
